import Mathlib

/-!
Verification of the chapterize-whisper repository against its
natural-language specification.

The Python sources (`chapterize/utils.py`, `chapterize/chapterizer.py`,
`chapterize/transcribe.py`) are shallowly embedded below.  Python strings
are modeled as `List Char`; Python floats are modeled as `ℚ` (the claims
under consideration are about the arithmetic the code performs, not about
IEEE-754 rounding); Python exceptions are modeled with `Option`/`Except`.
Character classes (`str.isdigit`, `\d`, `\s`, `str.lower`) are modeled by
their ASCII behaviour, which coincides with Python's for every input
appearing in the spec and in the claims.
-/

/-! ## Python string primitives -/

/-- The whitespace characters recognised by `str.strip()` / regex `\s`
(ASCII fragment: space, tab, newline, carriage return, vertical tab,
form feed). -/
def pyIsSpace (c : Char) : Bool :=
  c = ' ' || c = '\t' || c = '\n' || c = '\r' || c = '\x0b' || c = '\x0c'

/-- Python `str.strip()`: drop leading and trailing whitespace. -/
def pyStrip (s : List Char) : List Char :=
  ((s.dropWhile pyIsSpace).reverse.dropWhile pyIsSpace).reverse

/-- Python `str.lower()` (ASCII case mapping; all inputs of interest are
ASCII). -/
def pyLower (s : List Char) : List Char := s.map Char.toLower

/-- Python `s.startswith(p)`. -/
def startsWithSeq : List Char → List Char → Bool
  | [], _ => true
  | _ :: _, [] => false
  | p :: ps, c :: cs => p = c && startsWithSeq ps cs

/-- Python `needle in hay` (substring containment). -/
def pyContains (needle : List Char) : List Char → Bool
  | [] => startsWithSeq needle []
  | c :: rest => startsWithSeq needle (c :: rest) || pyContains needle rest

/-- Python `s.endswith(suffixStr)`. -/
def endsWithSeq (sfx s : List Char) : Bool :=
  startsWithSeq sfx.reverse s.reverse

/-- Shorthand turning a Lean string literal into the `List Char` model of a
Python string. -/
def s2l (s : String) : List Char := s.data

/-! ## Decimal rendering and parsing -/

/-- The decimal digit character for `n < 10`. -/
def digitChar (n : ℕ) : Char := Char.ofNat (48 + n)

/-- Digit expansion with explicit fuel (structural recursion, so that the
kernel can evaluate it; the fuel never runs out when it exceeds `n`). -/
def natToCharsAux : ℕ → ℕ → List Char
  | 0, _ => []
  | fuel + 1, n =>
    if n < 10 then [digitChar n]
    else natToCharsAux fuel (n / 10) ++ [digitChar (n % 10)]

/-- Decimal digits of a natural number, most significant first (the digits
produced by Python's `format`/`str` for a non-negative integer). -/
def natToChars (n : ℕ) : List Char := natToCharsAux (n + 1) n

/-- Python format spec `{n:0wd}` for a non-negative integer: zero-pad the
decimal digits to width `w`. -/
def padNat (w : ℕ) (n : ℕ) : List Char :=
  List.replicate (w - (natToChars n).length) '0' ++ natToChars n

/-- Python format spec `{i:0wd}` for an integer (sign, then zero-padding). -/
def padInt (w : ℕ) (i : ℤ) : List Char :=
  if i < 0 then '-' :: padNat (w - 1) (-i).toNat else padNat w i.toNat

/-- Numeric value of a digit character. -/
def charDigit (c : Char) : ℕ := c.toNat - 48

/-- Value of a list of decimal digit characters (most significant first). -/
def parseDigits (l : List Char) : ℕ :=
  l.foldl (fun a c => a * 10 + charDigit c) 0

/-- All-decimal-digit check used by `int()` (Python accepts exactly an
optionally signed, non-empty digit run after stripping whitespace;
underscore digit separators are not modeled — no input here contains
them). -/
def parseNatDigits (l : List Char) : Option ℕ :=
  if l ≠ [] ∧ l.all Char.isDigit then some (parseDigits l) else none

/-- Python `int(s)`: strip whitespace, optional sign, digits; `none` models
the `ValueError`. -/
def pyInt (s : List Char) : Option ℤ :=
  match pyStrip s with
  | [] => none
  | c :: rest =>
    if c = '-' then (parseNatDigits rest).map (fun n => -(n : ℤ))
    else if c = '+' then (parseNatDigits rest).map (fun n => (n : ℤ))
    else (parseNatDigits (c :: rest)).map (fun n => (n : ℤ))

/-! ## Splitting -/

/-- Python `s.split(sep)` for a single-character separator (no maxsplit):
always returns at least one part. -/
def splitOnChar (sep : Char) : List Char → List (List Char)
  | [] => [[]]
  | c :: rest =>
    match splitOnChar sep rest with
    | [] => [[]]
    | h :: t => if c = sep then [] :: h :: t else (c :: h) :: t

/-- Split at the first occurrence of `sep`; `none` when `sep` does not
occur. -/
def splitFirst (sep : Char) : List Char → Option (List Char × List Char)
  | [] => none
  | c :: rest =>
    if c = sep then some ([], rest)
    else (splitFirst sep rest).map (fun p => (c :: p.1, p.2))

/-- Python `a, b, c = s.split(sep, 2)`: the unpacking succeeds exactly when
`s` contains at least two occurrences of `sep`; `none` models the
`ValueError` raised otherwise. -/
def pySplit2 (sep : Char) (l : List Char) : Option (List Char × List Char × List Char) :=
  (splitFirst sep l).bind fun p =>
    (splitFirst sep p.2).map fun q => (p.1, q.1, q.2)

/-- First index at which `sep` occurs as a subsequence block, if any (used
by multi-character `str.split`). -/
def findSeqIdx (sep l : List Char) : Option ℕ :=
  (List.range (l.length + 1)).find? (fun i => startsWithSeq sep (l.drop i))

/-- Python `s.split(sepStr)` for a non-empty multi-character separator,
with enough fuel to terminate. -/
def splitOnSeqAux (sep : List Char) : ℕ → List Char → List (List Char)
  | 0, l => [l]
  | fuel + 1, l =>
    match findSeqIdx sep l with
    | none => [l]
    | some i => l.take i :: splitOnSeqAux sep fuel (l.drop (i + sep.length))

/-- Python `s.split(sepStr)` for a non-empty multi-character separator. -/
def splitOnSeq (sep l : List Char) : List (List Char) :=
  splitOnSeqAux sep (l.length + 1) l

/-! ## Python numeric primitives -/

/-- Python `int(x)` on a float: truncation toward zero. -/
def pyTrunc (q : ℚ) : ℤ := if 0 ≤ q then ⌊q⌋ else ⌈q⌉

/-- Python `x % 1` on a float (floor convention, result in `[0, 1)`). -/
def pyMod1 (q : ℚ) : ℚ := q - ⌊q⌋

/-- Python integer floor division `a // b` (for the positive divisors used
in this code base). -/
def pyFloorDiv (a b : ℤ) : ℤ := ⌊(a : ℚ) / (b : ℚ)⌋

/-- Python `a % b` on integers (floor convention). -/
def pyIntMod (a b : ℤ) : ℤ := a - b * pyFloorDiv a b

/-- Python `divmod(a, b)` on integers. -/
def pyDivMod (a b : ℤ) : ℤ × ℤ := (pyFloorDiv a b, pyIntMod a b)

/-- Python `round(x)`: round half to even (banker's rounding). -/
def pyRound (q : ℚ) : ℤ :=
  let f := ⌊q⌋
  let r := q - f
  if r < 1 / 2 then f
  else if 1 / 2 < r then f + 1
  else if Even f then f else f + 1

/-! ## `chapterize/utils.py` -/

/-- `utils.BookChapter` (dataclass: id, start, end, title).  The Python
field `end` is a Lean keyword and is embedded as `stop`. -/
structure BookChapter where
  id : ℤ
  start : ℚ
  stop : ℚ
  title : List Char
deriving DecidableEq

/-- The `chapter_patterns` set literal of `utils.is_chapter`, in source
order. -/
def chapter_patterns : List (List Char) :=
  [s2l "chapter ", s2l "part ", s2l "book ", s2l "section ",
   s2l "prologue", s2l "prolog", s2l "epilogue", s2l "epilog",
   s2l "introduction", s2l "interlude", s2l "intermission",
   s2l "afterword", s2l "foreword", s2l "preface", s2l "appendix"]

/-- The `roman_numerals` set literal of `utils.is_chapter`. -/
def roman_numerals : List (List Char) :=
  [s2l "i", s2l "ii", s2l "iii", s2l "iv", s2l "v", s2l "vi",
   s2l "vii", s2l "viii", s2l "ix", s2l "x"]

/-- `utils.is_chapter`.  The source generator is
`any(text.startswith(pattern) for pattern in chapter_patterns or text.isdigit() or text in roman_numerals)`:
by operator precedence the iterated expression is
`chapter_patterns or (text.isdigit() or text in roman_numerals)`, and
Python's `or` returns its first truthy operand.  `chapter_patterns` is a
non-empty set literal, hence always truthy, so the generator iterates over
`chapter_patterns` alone and the `isdigit`/`roman_numerals` alternatives
are unreachable (iterating over the boolean that `or` would otherwise
yield would raise `TypeError`, modeled by the empty iteration). -/
def is_chapter (text : List Char) : Bool :=
  let t := pyStrip (pyLower text)
  (if chapter_patterns.isEmpty then [] else chapter_patterns).any
    (fun pat => startsWithSeq pat t)

/-- `utils.format_timestamp_srt(seconds, offset=0)`: emit
`HH:MM:SS,mmm` (fields zero-padded, hours unbounded). -/
def format_timestamp_srt (seconds : ℚ) (offset : ℚ) : List Char :=
  let s0 := seconds + offset
  let milliseconds : ℤ := pyTrunc (pyMod1 s0 * 1000)
  let s1 : ℤ := pyTrunc s0
  let ms1 := pyDivMod s1 60
  let hm := pyDivMod ms1.1 60
  padInt 2 hm.1 ++ ':' :: (padInt 2 hm.2 ++ ':' :: (padInt 2 ms1.2 ++ ',' :: padInt 3 milliseconds))

/-- `utils.parse_timestamp_srt(timestamp)`: split on `:` into exactly
three fields, split the last on `,` into exactly two, convert with
`int()` and recombine; `none` models the `ValueError` on any failure. -/
def parse_timestamp_srt (timestamp : List Char) : Option ℚ :=
  match splitOnChar ':' timestamp with
  | [hours, minutes, seconds_ms] =>
    match splitOnChar ',' seconds_ms with
    | [seconds, milliseconds] =>
      match pyInt hours, pyInt minutes, pyInt seconds, pyInt milliseconds with
      | some h, some m, some s, some ms =>
        some ((h : ℚ) * 3600 + (m : ℚ) * 60 + (s : ℚ) + (ms : ℚ) / 1000)
      | _, _, _, _ => none
    | _ => none
  | _ => none

/-- Lift a fallible Python expression into the exception monad: `none`
becomes the raised `ValueError`. -/
def ofOption : Option α → List Char → Except (List Char) α
  | some a, _ => .ok a
  | none, msg => .error msg

/-- One iteration step of the loop in `utils.parse_chapter_file`,
processing `lines[i]` with look-ahead at `lines[i+1]` (`lines[:-1]`
excludes the final sentinel line); `Except.error` models an uncaught
exception escaping `parse_chapter_file`. -/
def parseChapterLoop : ℕ → List (List Char) → Except (List Char) (List BookChapter)
  | _, [] => .ok []
  | _, [_] => .ok []
  | i, line :: next :: rest => do
    let parts ← ofOption (pySplit2 ',' line) (s2l "ValueError: not enough values to unpack")
    let full_timestamp := parts.1 ++ ',' :: parts.2.1
    let start_time ← ofOption (parse_timestamp_srt full_timestamp) (s2l "ValueError: invalid timestamp")
    let nparts ← ofOption (pySplit2 ',' next) (s2l "ValueError: not enough values to unpack")
    let next_full_timestamp := nparts.1 ++ ',' :: nparts.2.1
    let end_time ← ofOption (parse_timestamp_srt next_full_timestamp) (s2l "ValueError: invalid timestamp")
    let restChapters ← parseChapterLoop (i + 1) (next :: rest)
    .ok ({ id := (i : ℤ) + 1, start := start_time, stop := end_time,
           title := pyStrip parts.2.2 } :: restChapters)

/-- `utils.parse_chapter_file`: the input is the file's physical lines;
the function strips each line, keeps the non-blank ones, and builds one
`BookChapter` per kept line except the last (each chapter's end time is
the next line's timestamp, its id is the 0-based loop index plus one). -/
def parse_chapter_file (rawLines : List (List Char)) : Except (List Char) (List BookChapter) :=
  parseChapterLoop 0 ((rawLines.map pyStrip).filter (fun l => !l.isEmpty))

/-! ## `chapterize/chapterizer.py` -/

/-- `Chapterizer.format_timestamp(seconds)`: builds
`datetime.timedelta(seconds=seconds)` and formats `td.seconds` (the
within-day seconds, so hours wrap at 24) plus `round(td.microseconds/1000)`
milliseconds.  `timedelta` normalises a float argument to a whole number
of microseconds with round-half-even. -/
def chapterizer_format_timestamp (seconds : ℚ) : List Char :=
  let usTotal : ℤ := pyRound (seconds * 1000000)
  let tdSeconds : ℤ := pyIntMod (pyFloorDiv usTotal 1000000) 86400
  let tdMicroseconds : ℤ := pyIntMod usTotal 1000000
  let hours := pyFloorDiv tdSeconds 3600
  let minutes := pyIntMod (pyFloorDiv tdSeconds 60) 60
  let secs := pyIntMod tdSeconds 60
  let milliseconds := pyRound ((tdMicroseconds : ℚ) / 1000)
  padInt 2 hours ++ ':' :: (padInt 2 minutes ++ ':' :: (padInt 2 secs ++ ',' :: padInt 3 milliseconds))

/-- The separator string `' --> '` of an SRT timing line. -/
def arrowSep : List Char := s2l " --> "

/-- The inner loop of `Chapterizer.validate_srt`: scan `reversed(lines)`
for the first line containing `' --> '`; on that line decode the end
timestamp's whole seconds and compare with the expected duration, then
`break` (after the loop the function returns `True`).  `none` models an
exception reaching the enclosing `try`. -/
def validateSrtScan (expected_duration : ℤ) : List (List Char) → Option Bool
  | [] => some true
  | line :: rest =>
    if pyContains arrowSep line then do
      let end_time_raw ← (splitOnSeq arrowSep line).get? 1
      let end_time := pyStrip end_time_raw
      let first_field ← (splitOnChar ',' end_time).get? 0
      match splitOnChar ':' first_field with
      | [h, m, s] => do
        let hi ← pyInt h
        let mi ← pyInt m
        let si ← pyInt s
        let last_timestamp := hi * 3600 + mi * 60 + si
        if |last_timestamp - expected_duration| > 30 then some false
        else some true
      | _ => none
    else validateSrtScan expected_duration rest

/-- `Chapterizer.validate_srt(file_path, expected_duration)`, as a function
of the file's raw content: `content = f.read().strip()`; empty content and
content not ending in `'\n\n'` are rejected; otherwise the reversed-line
scan decides; any exception is caught and yields `False`. -/
def validate_srt (raw : List Char) (expected_duration : ℤ) : Bool :=
  let content := pyStrip raw
  if content.isEmpty then false
  else if !endsWithSeq (s2l "\n\n") content then false
  else ((validateSrtScan expected_duration (splitOnChar '\n' content).reverse).getD false)

/-- Greedy prefix matcher for a literal regex fragment; returns the
remaining input. -/
def reLit : List Char → List Char → Option (List Char)
  | [], s => some s
  | _ :: _, [] => none
  | p :: ps, c :: cs => if p = c then reLit ps cs else none

/-- Greedy matcher for a one-or-more character-class regex fragment
(`\s+`, `\d+`); exact here because in every pattern of
`Chapterizer.is_chapter_title` the following fragment starts with a
character outside the class, so no backtracking can occur. -/
def reMany1 (p : Char → Bool) : List Char → Option (List Char)
  | [] => none
  | c :: rest => if p c then some (rest.dropWhile p) else none

/-- `re.match(r'^key\s+\d+', t)` as a boolean. -/
def reKeyNum (key : List Char) (t : List Char) : Bool :=
  (((reLit key t).bind (reMany1 pyIsSpace)).bind (reMany1 Char.isDigit)).isSome

/-- `re.match(r'^\d+\.', t)` as a boolean. -/
def reNumDot (t : List Char) : Bool :=
  ((reMany1 Char.isDigit t).bind (reLit [ '.' ])).isSome

/-- `re.match(r'book\s+\d+:\s+chapter', t)` as a boolean (`re.match`
anchors at the start of the string even without `^`). -/
def reBookChapter (t : List Char) : Bool :=
  (((((reLit (s2l "book") t).bind (reMany1 pyIsSpace)).bind
      (reMany1 Char.isDigit)).bind (reLit [ ':' ])).bind
    (fun r => (reMany1 pyIsSpace r).bind (reLit (s2l "chapter")))).isSome

/-- `re.match(r'^\d+\s*$', t)` as a boolean (digits, optional trailing
whitespace, end of string). -/
def reJustNum (t : List Char) : Bool :=
  match reMany1 Char.isDigit t with
  | none => false
  | some r => (r.dropWhile pyIsSpace).isEmpty

/-- The `special_phrases` list of `Chapterizer.is_chapter_title`. -/
def special_phrases : List (List Char) :=
  [s2l "read for you by", s2l "end of chapter", s2l "end of book",
   s2l "end of part"]

/-- `Chapterizer.is_chapter_title(text)`: lowercase and strip, then test
the regex pattern list, the special-phrase containment list, and the
bare-number pattern. -/
def is_chapter_title (text : List Char) : Bool :=
  let text_lower := pyStrip (pyLower text)
  let patterns_hit :=
    reKeyNum (s2l "chapter") text_lower ||
    reKeyNum (s2l "book") text_lower ||
    reKeyNum (s2l "part") text_lower ||
    reKeyNum (s2l "section") text_lower ||
    reKeyNum (s2l "volume") text_lower ||
    (reLit (s2l "epilogue") text_lower).isSome ||
    (reLit (s2l "prologue") text_lower).isSome ||
    (reLit (s2l "introduction") text_lower).isSome ||
    (reLit (s2l "preface") text_lower).isSome ||
    (reLit (s2l "appendix") text_lower).isSome ||
    (reLit (s2l "afterword") text_lower).isSome ||
    (reLit (s2l "interlude") text_lower).isSome ||
    reKeyNum (s2l "act") text_lower ||
    reNumDot text_lower ||
    reBookChapter text_lower
  if patterns_hit then true
  else if special_phrases.any (fun ph => pyContains ph text_lower) then true
  else if reJustNum text_lower then true
  else false

/-- Lexicographic (byte-wise) order on paths, the order `sorted()` applies
to `pathlib.Path` values (on POSIX, `PurePath.__lt__` compares the
case-normalised path strings). -/
def lexLe : List Char → List Char → Bool
  | [], _ => true
  | _ :: _, [] => false
  | a :: as, b :: bs => if a < b then true else if a = b then lexLe as bs else false

/-- One audio file as `Chapterizer.categorize_files` observes it: its
path, whether `srt_path.exists()`, and the value of
`self.validate_srt(srt_path, round(info.duration))` on its on-disk
transcript (the duration probe and the disk read are external effects;
their combined outcome is a fixed boolean per file within one run). -/
structure AudioFile where
  path : List Char
  hasSrt : Bool
  srtValid : Bool
deriving DecidableEq

/-- `Chapterizer.find_audio_files`: `sorted(self.base_dir.rglob("*.mp3"))`,
modeled as sorting the discovered paths lexicographically. -/
def find_audio_files (found : List AudioFile) : List AudioFile :=
  List.insertionSort (fun a b => lexLe a.path b.path) found

/-- The loop of `Chapterizer.categorize_files` over the discovered files,
returning the `(skipped_files, partial_files, unprocessed_files)` lists in
append order. -/
def categorizeLoop : List AudioFile → List AudioFile × List AudioFile × List AudioFile
  | [] => ([], [], [])
  | f :: rest =>
    let t := categorizeLoop rest
    if f.hasSrt then
      if f.srtValid then (f :: t.1, t.2.1, t.2.2)
      else (t.1, f :: t.2.1, f :: t.2.2)
    else (t.1, t.2.1, f :: t.2.2)

/-- `Chapterizer.categorize_files`: categorize the sorted audio files.
The third component (`unprocessed_files`) is the work queue that
`Chapterizer.run` later iterates over. -/
def categorize_files (found : List AudioFile) : List AudioFile × List AudioFile × List AudioFile :=
  categorizeLoop (find_audio_files found)

/-- One recognized segment as `Chapterizer.process_file` consumes it
(`segment.start`, `segment.end`, `segment.text`; the Python field `end`
is a Lean keyword and is embedded as `stop`). -/
structure Seg where
  start : ℚ
  stop : ℚ
  text : List Char
deriving DecidableEq

/-- One SRT block as written by `Chapterizer.process_file`: the 1-based
index line, the timing line's two timestamps, and the single text line
(which carries the `[CHAPTER] ` prefix instead of the plain text when the
chapter condition fires). -/
structure SrtBlock where
  index : ℕ
  startTs : List Char
  stopTs : List Char
  textLine : List Char
deriving DecidableEq

/-- The writing loop of `Chapterizer.process_file` (file already open,
`current_chapter = None`): for each segment, strip its text, update
`current_chapter` when `is_chapter_title` fires, and write the block; the
text line is `f"[CHAPTER] {text}"` exactly when `current_chapter` is
truthy (a non-empty string) and `text in current_chapter`. -/
def processFileLoop : Option (List Char) → ℕ → List Seg → List SrtBlock
  | _, _, [] => []
  | current_chapter, i, seg :: rest =>
    let text := pyStrip seg.text
    let current_chapter' :=
      if is_chapter_title text then some text else current_chapter
    let textLine :=
      match current_chapter' with
      | some c => if !c.isEmpty && pyContains text c then s2l "[CHAPTER] " ++ text else text
      | none => text
    { index := i,
      startTs := chapterizer_format_timestamp seg.start,
      stopTs := chapterizer_format_timestamp seg.stop,
      textLine := textLine } :: processFileLoop current_chapter' (i + 1) rest

/-- `Chapterizer.process_file`, restricted to its observable output: the
sequence of SRT blocks written for the segment stream of one audio file
(enumeration starts at 1, `current_chapter` starts as `None`). -/
def process_file (segs : List Seg) : List SrtBlock :=
  processFileLoop none 1 segs

/-! ## `chapterize/transcribe.py` -/

/-- The path of the marker log that
`FileTranscriber._process_segment` appends to:
`f'{self.audio_directory}/transcription.chapters'`. -/
def markerLogPath (audio_directory : List Char) : List Char :=
  audio_directory ++ s2l "/transcription.chapters"

/-- The marker-log line `FileTranscriber._process_segment` appends when
`is_chapter(segment.text)` fires: `f"{segment.start + offset}, {segment.text}"`.
The first field is the Python float `repr` of the absolute start time;
it is kept abstract here (a float `repr` never contains a comma). -/
def markerLogLine (timeField : List Char) (text : List Char) : List Char :=
  timeField ++ ',' :: ' ' :: text

/-- One SRT entry as written by `FileTranscriber._process_segment`:
`f"{segment_number}\n{start_time} --> {end_time}\n{segment.text.strip()}\n\n"`.
`number` is `index + offset_index`; after the first file of the driver
loop in `transcribe.py.__main__` the offset is a float, so the number is
rational.  `startAbs`/`stopAbs` record the absolute times
`segment.start + offset` / `segment.end + offset` that the two written
timestamps encode. -/
structure SrtEntry where
  number : ℚ
  startAbs : ℚ
  stopAbs : ℚ
  startTs : List Char
  stopTs : List Char
  text : List Char
deriving DecidableEq

/-- The per-segment body of `FileTranscriber.transcribe_with_progress`:
`enumerate(segments, 1)` feeds `_process_segment(segment, index + offset_index, offset_seconds)`. -/
def transcribeEntries (segs : List Seg) (offset_index offset_seconds : ℚ) : List SrtEntry :=
  (List.range segs.length).zip segs |>.map fun p =>
    { number := (p.1 + 1 : ℕ) + offset_index,
      startAbs := p.2.start + offset_seconds,
      stopAbs := p.2.stop + offset_seconds,
      startTs := format_timestamp_srt p.2.start offset_seconds,
      stopTs := format_timestamp_srt p.2.stop offset_seconds,
      text := pyStrip p.2.text }

/-- `FileTranscriber.transcribe_with_progress(offset_index, offset_seconds)`:
returns the written entries together with the Python return value
`(index, info.duration)`, where `index` is the final value of the
enumeration variable — the number of segments of this file, without the
offset.  An empty stream leaves `index` unbound and raises
`NameError` at the `return`, modeled by `none`. -/
def transcribe_with_progress (segs : List Seg) (duration : ℚ)
    (offset_index offset_seconds : ℚ) : Option (List SrtEntry × ℚ × ℚ) :=
  if segs.isEmpty then none
  else some (transcribeEntries segs offset_index offset_seconds, (segs.length : ℚ), duration)

/-- One iteration of the driver loop in `transcribe.py.__main__`:
`offset_seconds, offset_index = asyncio.run(t.transcribe_with_progress(offset_index, offset_seconds))`
— the returned pair `(index, info.duration)` is unpacked into
`(offset_seconds, offset_index)`, i.e. swapped relative to the call's
argument order. -/
def bookDriverStep (state : ℚ × ℚ) (file : List Seg × ℚ) :
    Option ((ℚ × ℚ) × List SrtEntry) :=
  (transcribe_with_progress file.1 file.2 state.1 state.2).map fun r =>
    ((r.2.2, r.2.1), r.1)

/-- The driver loop of `transcribe.py.__main__` over the book's audio
files, starting from `offset_index = 0`, `offset_seconds = 0.0`; returns
the per-file entry lists and the final `(offset_index, offset_seconds)`
state. -/
def bookDriver : (ℚ × ℚ) → List (List Seg × ℚ) → Option (List (List SrtEntry) × (ℚ × ℚ))
  | state, [] => some ([], state)
  | state, file :: rest => do
    let step ← bookDriverStep state file
    let tail ← bookDriver step.1 rest
    some (step.2 :: tail.1, tail.2)

/-- `os.remove(name)` with `FileNotFoundError` silently ignored, on a
file system modeled as the list of existing path names. -/
def removeFile (name : List Char) (fs : List (List Char)) : List (List Char) :=
  fs.filter (fun f => f ≠ name)

/-- `BookTranscriber._clean_detection_files`: for each discovered audio
file, remove `f'{audio_file}.srt'` and `f'{audio_file}.chapters'`,
ignoring missing files. -/
def clean_detection_files (audio_files : List (List Char)) (fs : List (List Char)) : List (List Char) :=
  audio_files.foldl
    (fun acc a => removeFile (a ++ s2l ".chapters") (removeFile (a ++ s2l ".srt") acc)) fs

/-! ## Definitions used only to state the claims -/

/-- Independent recomputation of "the most recently detected chapter
title" after consuming a list of segments (used to state the claim about
`process_file` without referring to its internal loop state). -/
def lastDetectedTitle (segs : List Seg) : Option (List Char) :=
  segs.foldl
    (fun acc s => if is_chapter_title (pyStrip s.text) then some (pyStrip s.text) else acc)
    none

/-- A well-formed `HH:MM:SS,mmm` timestamp text for the given field
values. -/
def renderTs (h m s ms : ℕ) : List Char :=
  padNat 2 h ++ ':' :: (padNat 2 m ++ ':' :: (padNat 2 s ++ ',' :: padNat 3 ms))

/-- The timestamp value (in seconds) that the fields of `renderTs`
denote. -/
def tsVal (h m s ms : ℕ) : ℚ :=
  (h : ℚ) * 3600 + (m : ℚ) * 60 + (s : ℚ) + (ms : ℚ) / 1000

/-- A chapter marker in the line format `utils.parse_chapter_file`
expects: timestamp fields plus a title. -/
structure MarkerSpec where
  h : ℕ
  m : ℕ
  s : ℕ
  ms : ℕ
  title : List Char
deriving DecidableEq

/-- The marker-log line for a `MarkerSpec`:
`HH:MM:SS,mmm,title`. -/
def renderMarkerLine (mk : MarkerSpec) : List Char :=
  renderTs mk.h mk.m mk.s mk.ms ++ ',' :: mk.title

/-- The timestamp value of a `MarkerSpec`. -/
def markerVal (mk : MarkerSpec) : ℚ := tsVal mk.h mk.m mk.s mk.ms

/-- The chapter list that `parse_chapter_file` builds from well-formed
marker lines, written as a straightforward recursion for use in the
amended claim about `parse_chapter_file`: one chapter per marker except
the last, `start` the marker's own timestamp, `stop` the next marker's
timestamp, `id` the 0-based position plus one. -/
def chaptersFromSpec : ℕ → List MarkerSpec → List BookChapter
  | _, [] => []
  | _, [_] => []
  | i, mk :: mk' :: rest =>
    { id := (i : ℤ) + 1, start := markerVal mk, stop := markerVal mk', title := mk.title }
      :: chaptersFromSpec (i + 1) (mk' :: rest)

/-! ## General lemmas about the string primitives -/

theorem startsWithSeq_cons_eq {p c : Char} {ps cs : List Char}
    (h : startsWithSeq (p :: ps) (c :: cs) = true) : p = c ∧ startsWithSeq ps cs = true := by
  simpa [startsWithSeq, Bool.and_eq_true, decide_eq_true_eq] using h

theorem dropWhileHeadFalse {p : Char → Bool} :
    ∀ {l : List Char} {c : Char} {t : List Char}, l.dropWhile p = c :: t → p c = false := by
  intro l
  induction l with
  | nil => intro c t h; simp [List.dropWhile] at h
  | cons a l ih =>
    intro c t h
    by_cases hp : p a
    · rw [List.dropWhile_cons_of_pos hp] at h
      exact ih h
    · rw [List.dropWhile_cons_of_neg hp] at h
      cases h
      simpa using hp

theorem pyStripGetLastNotSpace {s : List Char} {c : Char}
    (h : (pyStrip s).getLast? = some c) : pyIsSpace c = false := by
  unfold pyStrip at h
  rw [List.getLast?_reverse] at h
  rcases hd : ((s.dropWhile pyIsSpace).reverse.dropWhile pyIsSpace) with _ | ⟨a, t⟩
  · rw [hd] at h; simp at h
  · rw [hd] at h
    simp only [List.head?] at h
    cases h
    exact dropWhileHeadFalse hd


/-! ## Claim C1: `Chapterizer.validate_srt` -/

/-- `validate_srt` can never reach its success path: `content` is the
`strip()`ped file text, and a stripped non-empty string never ends with
`'\n\n'`, so one of the two early `return False` branches always fires. -/
theorem validateAlwaysFalseAux (raw : List Char) (d : ℤ) : validate_srt raw d = false := by
  unfold validate_srt
  rcases he : (pyStrip raw).isEmpty with _ | _
  · simp only [he, Bool.false_eq_true, if_false]
    have hend : endsWithSeq (s2l "\n\n") (pyStrip raw) = false := by
      by_contra hc
      have hc' : endsWithSeq (s2l "\n\n") (pyStrip raw) = true := by
        simpa using hc
      unfold endsWithSeq at hc'
      have hrev : (s2l "\n\n").reverse = ['\n', '\n'] := by decide
      rw [hrev] at hc'
      rcases hr : (pyStrip raw).reverse with _ | ⟨a, t⟩
      · rw [hr] at hc'; simp [startsWithSeq] at hc'
      · rw [hr] at hc'
        have ha := (startsWithSeq_cons_eq hc').1
        have hlast : (pyStrip raw).getLast? = some a := by
          rw [← List.head?_reverse, hr]; rfl
        have := pyStripGetLastNotSpace hlast
        rw [← ha] at this
        simp [pyIsSpace] at this
    simp [hend]
  · simp [he]

/-- **C1** (code bug).  The claim states that `validate_srt` returns true
for a non-empty transcript that ends with the trailing blank line and
whose last end-timestamp is within 30 seconds of the expected duration.
In fact `validate_srt` returns false on *every* input — the code strips
the file content before testing `content.endswith('\n\n')`, so the
structural check can never succeed: here evaluated on a complete
single-entry SRT file whose end timestamp (100 s) equals the expected
duration exactly, and proved for all inputs. -/
theorem claim_C1_validate_srt_never_true :
    validate_srt (s2l "1\n00:00:00,000 --> 00:01:40,000\nhello\n\n") 100 = false ∧
    ∀ (raw : List Char) (d : ℤ), validate_srt raw d = false :=
  ⟨validateAlwaysFalseAux _ _, validateAlwaysFalseAux⟩

/-! ## Claim C4: the chapter-heading predicates -/

/-- **C4 counterexample.**  The claim asserts the chapter-heading
predicate accepts `"vi"`, `"12"` and `"end of chapter"` as well as
`"Chapter One"` and `"Part III"`; neither predicate in the code does.
`utils.is_chapter` rejects `"vi"`, `"12"` and `"end of chapter"` (the
`isdigit`/Roman-numeral alternatives sit on the right of a short-circuited
`or` inside the generator's `in` clause and are dead), while
`Chapterizer.is_chapter_title` rejects `"Chapter One"`, `"Part III"`
(its keyword regexes require a trailing number) and `"vi"`. -/
theorem claim_C4_counterexample :
    is_chapter (s2l "vi") = false ∧ is_chapter (s2l "12") = false ∧
    is_chapter (s2l "end of chapter") = false ∧
    is_chapter_title (s2l "Chapter One") = false ∧
    is_chapter_title (s2l "Part III") = false ∧
    is_chapter_title (s2l "vi") = false := by decide

/-- **C4 amended.**  What the two predicates actually do on the claimed
inputs: `utils.is_chapter` is exactly a fixed-prefix test on the
lowercased stripped text, accepting `"Chapter One"` and `"Part III"` and
rejecting bare numbers, Roman numerals, the special phrases and ordinary
prose; `Chapterizer.is_chapter_title` accepts `"12"` (bare number) and
`"end of chapter"` (special phrase) and rejects ordinary prose. -/
theorem claim_C4_amended_behavior :
    (∀ text : List Char,
      is_chapter text = chapter_patterns.any (fun pat => startsWithSeq pat (pyStrip (pyLower text)))) ∧
    is_chapter (s2l "Chapter One") = true ∧
    is_chapter (s2l "Part III") = true ∧
    is_chapter (s2l "The cat sat on the mat") = false ∧
    is_chapter_title (s2l "12") = true ∧
    is_chapter_title (s2l "end of chapter") = true ∧
    is_chapter_title (s2l "The cat sat on the mat") = false := by
  refine ⟨fun text => rfl, ?_, ?_, ?_, ?_, ?_, ?_⟩ <;> decide

/-! ## Claim C6: `parse_chapter_file` on short logs -/

/-- **C6 counterexample.**  The claim asserts that a marker log with
fewer than two non-blank lines makes `parse_chapter_file` fail with a
hard error rather than return a result.  In fact the loop over
`lines[:-1]` simply never executes: both the empty log and a one-marker
log silently return the empty chapter list. -/
theorem claim_C6_counterexample :
    parse_chapter_file [] = .ok [] ∧
    parse_chapter_file [s2l "00:00:00,000, Chapter 1"] = .ok [] :=
  ⟨rfl, rfl⟩

/-- **C6 amended.**  For every marker log with fewer than two non-blank
lines, `parse_chapter_file` silently returns the empty chapter list (no
error is raised and no one-chapter span is fabricated). -/
theorem claim_C6_short_log_returns_empty (rawLines : List (List Char))
    (h : ((rawLines.map pyStrip).filter (fun l => !l.isEmpty)).length < 2) :
    parse_chapter_file rawLines = .ok [] := by
  unfold parse_chapter_file
  rcases hl : (rawLines.map pyStrip).filter (fun l => !l.isEmpty) with _ | ⟨a, _ | ⟨b, t⟩⟩
  · rw [hl]; rfl
  · rw [hl]; rfl
  · rw [hl] at h; simp only [List.length_cons] at h; omega

/-- **C6 witness.**  The one-marker log produced by a single detected
chapter satisfies the hypothesis and returns `ok []`. -/
theorem claim_C6_witness :
    (((([s2l "0.0, Chapter 1"]).map pyStrip).filter (fun l => !l.isEmpty)).length < 2) ∧
    parse_chapter_file [s2l "0.0, Chapter 1"] = .ok [] :=
  ⟨by decide, claim_C6_short_log_returns_empty _ (by decide)⟩


/-! ## Digit, strip and split lemmas shared by several claims -/

theorem charDigit_digitChar {n : ℕ} (h : n < 10) : charDigit (digitChar n) = n := by
  interval_cases n <;> decide

theorem digitChar_isDigit {n : ℕ} (h : n < 10) : (digitChar n).isDigit = true := by
  interval_cases n <;> decide

theorem natToCharsAux_irrel :
    ∀ (f1 f2 n : ℕ), n < f1 → n < f2 → natToCharsAux f1 n = natToCharsAux f2 n := by
  intro f1
  induction f1 with
  | zero => intro f2 n h1 _; omega
  | succ f1 ih =>
    intro f2 n h1 h2
    cases f2 with
    | zero => omega
    | succ f2 =>
      simp only [natToCharsAux]
      by_cases h : n < 10
      · simp [h]
      · have hdiv : n / 10 < n := Nat.div_lt_self (by omega) (by omega)
        rw [if_neg h, if_neg h, ih f2 (n / 10) (by omega) (by omega)]

theorem natToChars_unfold (n : ℕ) :
    natToChars n = if n < 10 then [digitChar n] else natToChars (n / 10) ++ [digitChar (n % 10)] := by
  show natToCharsAux (n + 1) n = _
  by_cases h : n < 10
  · simp [natToCharsAux, h]
  · have hdiv : n / 10 < n := Nat.div_lt_self (by omega) (by omega)
    simp only [natToCharsAux, if_neg h]
    rw [natToCharsAux_irrel n (n / 10 + 1) (n / 10) (by omega) (by omega)]
    rfl

theorem natToChars_ne_nil (n : ℕ) : natToChars n ≠ [] := by
  rw [natToChars_unfold]
  split
  · simp
  · simp

theorem natToChars_all_digits (n : ℕ) : ∀ c ∈ natToChars n, c.isDigit = true := by
  induction n using Nat.strong_induction_on with
  | _ n ih =>
    rw [natToChars_unfold]
    split
    · next h => intro c hc; simp at hc; subst hc; exact digitChar_isDigit h
    · next h =>
      intro c hc
      simp only [List.mem_append, List.mem_singleton] at hc
      rcases hc with hc | hc
      · exact ih (n / 10) (Nat.div_lt_self (by omega) (by omega)) c hc
      · subst hc; exact digitChar_isDigit (Nat.mod_lt _ (by omega))

theorem foldl_natToChars (n : ℕ) :
    ∀ acc : ℕ, (natToChars n).foldl (fun a c => a * 10 + charDigit c) acc
      = acc * 10 ^ (natToChars n).length + n := by
  induction n using Nat.strong_induction_on with
  | _ n ih =>
    intro acc
    rw [natToChars_unfold]
    split
    · next h => simp [charDigit_digitChar h]
    · next h =>
      rw [List.foldl_append]
      rw [ih (n / 10) (Nat.div_lt_self (by omega) (by omega)) acc]
      simp only [List.foldl_cons, List.foldl_nil, List.length_append, List.length_singleton]
      rw [charDigit_digitChar (Nat.mod_lt _ (by omega))]
      rw [pow_succ]
      have := Nat.div_add_mod n 10
      ring_nf
      omega

theorem parseDigits_natToChars (n : ℕ) : parseDigits (natToChars n) = n := by
  unfold parseDigits
  rw [foldl_natToChars]
  simp

theorem parseDigits_padNat (w n : ℕ) : parseDigits (padNat w n) = n := by
  unfold padNat parseDigits
  rw [List.foldl_append]
  have hz : ∀ k : ℕ, (List.replicate k '0').foldl (fun a c => a * 10 + charDigit c) 0 = 0 := by
    intro k
    induction k with
    | zero => rfl
    | succ k ihk => simpa [List.replicate_succ, charDigit] using ihk
  rw [hz]
  exact parseDigits_natToChars n

theorem padNat_all_digits (w n : ℕ) : ∀ c ∈ padNat w n, c.isDigit = true := by
  intro c hc
  unfold padNat at hc
  rcases List.mem_append.1 hc with hc | hc
  · rcases List.eq_of_mem_replicate hc with rfl; decide
  · exact natToChars_all_digits n c hc

theorem padNat_ne_nil (w n : ℕ) : padNat w n ≠ [] := by
  unfold padNat
  intro h
  exact natToChars_ne_nil n (List.append_eq_nil.1 h).2

theorem dropWhile_eq_self_of_all {p : Char → Bool} :
    ∀ {l : List Char}, (∀ c ∈ l, p c = false) → l.dropWhile p = l := by
  intro l h
  cases l with
  | nil => rfl
  | cons a t => exact List.dropWhile_cons_of_neg (by simp [h a (List.mem_cons_self a t)])

theorem pyStrip_eq_self_of_no_space {l : List Char}
    (h : ∀ c ∈ l, pyIsSpace c = false) : pyStrip l = l := by
  unfold pyStrip
  rw [dropWhile_eq_self_of_all h]
  rw [dropWhile_eq_self_of_all (fun c hc => h c (List.mem_reverse.1 hc))]
  exact List.reverse_reverse l

theorem digit_not_space {c : Char} (h : c.isDigit = true) : pyIsSpace c = false := by
  revert h
  unfold Char.isDigit pyIsSpace
  intro h
  simp only [Bool.or_eq_false_iff, decide_eq_false_iff_not]
  refine ⟨⟨⟨⟨⟨?_, ?_⟩, ?_⟩, ?_⟩, ?_⟩, ?_⟩ <;> (intro he; subst he; simp at h)

theorem pyInt_of_digits {l : List Char} (hne : l ≠ []) (hd : ∀ c ∈ l, c.isDigit = true) :
    pyInt l = some ((parseDigits l : ℕ) : ℤ) := by
  unfold pyInt
  have hstrip : pyStrip l = l := pyStrip_eq_self_of_no_space (fun c hc => digit_not_space (hd c hc))
  rw [hstrip]
  cases l with
  | nil => exact absurd rfl hne
  | cons c rest =>
    have hc := hd c (List.mem_cons_self c rest)
    have hcm : c ≠ '-' := by intro he; subst he; simp [Char.isDigit] at hc
    have hcp : c ≠ '+' := by intro he; subst he; simp [Char.isDigit] at hc
    simp only [hcm, hcp, if_false]
    unfold parseNatDigits
    rw [if_pos ⟨by simp, by simpa [List.all_eq_true] using hd⟩]
    rfl

theorem pyInt_padNat (w n : ℕ) : pyInt (padNat w n) = some (n : ℤ) := by
  rw [pyInt_of_digits (padNat_ne_nil w n) (padNat_all_digits w n), parseDigits_padNat]

theorem splitOnChar_of_not_mem {sep : Char} :
    ∀ {l : List Char}, sep ∉ l → splitOnChar sep l = [l] := by
  intro l
  induction l with
  | nil => intro _; rfl
  | cons c rest ih =>
    intro h
    have hc : c ≠ sep := fun he => h (he ▸ List.mem_cons_self c rest)
    have hrest : sep ∉ rest := fun hm => h (List.mem_cons_of_mem c hm)
    unfold splitOnChar
    rw [ih hrest]
    simp [hc]

theorem splitOnChar_ne_nil (sep : Char) : ∀ l : List Char, splitOnChar sep l ≠ [] := by
  intro l
  cases l with
  | nil => simp [splitOnChar]
  | cons c rest =>
    simp only [splitOnChar]
    rcases splitOnChar sep rest with _ | ⟨h, t⟩
    · simp
    · by_cases hcs : c = sep <;> simp [hcs]

theorem splitOnChar_cons_self (sep : Char) (b : List Char) :
    splitOnChar sep (sep :: b) = [] :: splitOnChar sep b := by
  simp only [splitOnChar]
  rcases hb : splitOnChar sep b with _ | ⟨h, t⟩
  · exact absurd hb (splitOnChar_ne_nil sep b)
  · simp

theorem splitOnChar_cons_ne {sep c : Char} (hc : c ≠ sep) (b : List Char) :
    splitOnChar sep (c :: b) = ((splitOnChar sep b).headD []).cons c :: (splitOnChar sep b).tail := by
  simp only [splitOnChar]
  rcases hb : splitOnChar sep b with _ | ⟨h, t⟩
  · exact absurd hb (splitOnChar_ne_nil sep b)
  · simp [hc]

theorem splitOnChar_append {sep : Char} :
    ∀ {a : List Char} (b : List Char), sep ∉ a →
      splitOnChar sep (a ++ sep :: b) = a :: splitOnChar sep b := by
  intro a
  induction a with
  | nil => intro b _; exact splitOnChar_cons_self sep b
  | cons c rest ih =>
    intro b h
    have hc : c ≠ sep := fun he => h (he ▸ List.mem_cons_self c rest)
    have hrest : sep ∉ rest := fun hm => h (List.mem_cons_of_mem c hm)
    show splitOnChar sep (c :: (rest ++ sep :: b)) = (c :: rest) :: splitOnChar sep b
    rw [splitOnChar_cons_ne hc, ih b hrest]
    simp

theorem not_mem_padNat {c : Char} (hc : c.isDigit = false) (w n : ℕ) : c ∉ padNat w n :=
  fun hm => by rw [padNat_all_digits w n c hm] at hc; exact Bool.noConfusion hc

theorem parse_timestamp_renderTs (h m s ms : ℕ) :
    parse_timestamp_srt (renderTs h m s ms) = some (tsVal h m s ms) := by
  have hcolon : (':' : Char).isDigit = false := by decide
  have hcomma : (',' : Char).isDigit = false := by decide
  have e1 : splitOnChar ':' (renderTs h m s ms)
      = [padNat 2 h, padNat 2 m, padNat 2 s ++ ',' :: padNat 3 ms] := by
    unfold renderTs
    rw [splitOnChar_append _ (not_mem_padNat hcolon 2 h)]
    rw [splitOnChar_append _ (not_mem_padNat hcolon 2 m)]
    rw [splitOnChar_of_not_mem (by
      intro hmem
      rcases List.mem_append.1 hmem with hmem | hmem
      · exact not_mem_padNat hcolon 2 s hmem
      · rcases List.mem_cons.1 hmem with he | hmem
        · exact absurd he (by decide)
        · exact not_mem_padNat hcolon 3 ms hmem)]
  have e2 : splitOnChar ',' (padNat 2 s ++ ',' :: padNat 3 ms)
      = [padNat 2 s, padNat 3 ms] := by
    rw [splitOnChar_append _ (not_mem_padNat hcomma 2 s)]
    rw [splitOnChar_of_not_mem (not_mem_padNat hcomma 3 ms)]
  simp only [parse_timestamp_srt, e1, e2, pyInt_padNat]
  unfold tsVal
  push_cast
  ring_nf

theorem splitFirst_of_not_mem {sep : Char} :
    ∀ {l : List Char}, sep ∉ l → splitFirst sep l = none := by
  intro l
  induction l with
  | nil => intro _; rfl
  | cons c rest ih =>
    intro h
    have hc : c ≠ sep := fun he => h (he ▸ List.mem_cons_self c rest)
    unfold splitFirst
    rw [ih (fun hm => h (List.mem_cons_of_mem c hm))]
    simp [hc]

theorem splitFirst_append {sep : Char} :
    ∀ {a : List Char} (b : List Char), sep ∉ a →
      splitFirst sep (a ++ sep :: b) = some (a, b) := by
  intro a
  induction a with
  | nil => intro b _; simp [splitFirst]
  | cons c rest ih =>
    intro b h
    have hc : c ≠ sep := fun he => h (he ▸ List.mem_cons_self c rest)
    show splitFirst sep (c :: (rest ++ sep :: b)) = some (c :: rest, b)
    unfold splitFirst
    rw [ih b (fun hm => h (List.mem_cons_of_mem c hm))]
    simp [hc]

theorem pySplit2_one_sep {a b : List Char} (ha : ',' ∉ a) (hb : ',' ∉ b) :
    pySplit2 ',' (a ++ ',' :: b) = none := by
  unfold pySplit2
  rw [splitFirst_append _ ha]
  simp [splitFirst_of_not_mem hb]

theorem pySplit2_two_sep {a b c : List Char} (ha : ',' ∉ a) (hb : ',' ∉ b) :
    pySplit2 ',' (a ++ ',' :: (b ++ ',' :: c)) = some (a, b, c) := by
  unfold pySplit2
  rw [splitFirst_append _ ha]
  simp [splitFirst_append _ hb]

theorem splitFirst_some_decomp {sep : Char} :
    ∀ {l a b : List Char}, splitFirst sep l = some (a, b) → l = a ++ sep :: b ∧ sep ∉ a := by
  intro l
  induction l with
  | nil => intro a b h; simp [splitFirst] at h
  | cons c rest ih =>
    intro a b h
    unfold splitFirst at h
    by_cases hc : c = sep
    · rw [if_pos hc] at h
      cases h
      subst hc
      exact ⟨rfl, by simp⟩
    · rw [if_neg hc] at h
      rcases hr : splitFirst sep rest with _ | ⟨a', b'⟩
      · rw [hr] at h; simp at h
      · rw [hr] at h
        simp only [Option.map_some', Option.some_inj] at h
        obtain ⟨ha, hb⟩ := ih hr
        cases h
        refine ⟨by rw [ha]; rfl, ?_⟩
        intro hm
        rcases List.mem_cons.1 hm with he | hm
        · exact hc he.symm
        · exact hb hm

theorem pySplit2_of_count_lt_two {l : List Char} (h : l.count ',' < 2) :
    pySplit2 ',' l = none := by
  rcases hs : splitFirst ',' l with _ | ⟨a, b⟩
  · unfold pySplit2; rw [hs]; rfl
  · obtain ⟨hl, hna⟩ := splitFirst_some_decomp hs
    have hcb : b.count ',' = 0 := by
      rw [hl] at h
      rw [List.count_append, List.count_cons_self, List.count_eq_zero.2 hna] at h
      omega
    unfold pySplit2
    rw [hs]
    simp [splitFirst_of_not_mem (List.count_eq_zero.1 hcb)]

theorem count_dropWhile_le (p : Char → Bool) (c : Char) :
    ∀ l : List Char, (l.dropWhile p).count c ≤ l.count c := by
  intro l
  induction l with
  | nil => simp
  | cons a t ih =>
    by_cases hp : p a
    · rw [List.dropWhile_cons_of_pos hp]
      refine le_trans ih ?_
      rw [List.count_cons]
      omega
    · rw [List.dropWhile_cons_of_neg hp]

theorem count_pyStrip_le (c : Char) (l : List Char) :
    (pyStrip l).count c ≤ l.count c := by
  unfold pyStrip
  rw [List.count_reverse]
  refine le_trans (count_dropWhile_le _ _ _) ?_
  rw [List.count_reverse]
  exact count_dropWhile_le _ _ _

theorem mem_dropWhile_of_not {p : Char → Bool} {c : Char} (hc : p c = false) :
    ∀ {l : List Char}, c ∈ l → c ∈ l.dropWhile p := by
  intro l
  induction l with
  | nil => intro h; simp at h
  | cons a t ih =>
    intro h
    by_cases hp : p a
    · rw [List.dropWhile_cons_of_pos hp]
      rcases List.mem_cons.1 h with he | hm
      · subst he; rw [hp] at hc; exact Bool.noConfusion hc
      · exact ih hm
    · rw [List.dropWhile_cons_of_neg hp]; exact h

theorem mem_pyStrip_of_not_space {c : Char} (hc : pyIsSpace c = false) {l : List Char}
    (hm : c ∈ l) : c ∈ pyStrip l := by
  unfold pyStrip
  rw [List.mem_reverse]
  exact mem_dropWhile_of_not hc (List.mem_reverse.2 (mem_dropWhile_of_not hc hm))

theorem markerLogLine_count (tf text : List Char) (h1 : ',' ∉ tf) (h2 : ',' ∉ text) :
    (markerLogLine tf text).count ',' = 1 := by
  unfold markerLogLine
  rw [List.count_append]
  rw [List.count_eq_zero.2 h1]
  rw [List.count_cons_self]
  rw [List.count_cons]
  rw [List.count_eq_zero.2 h2]
  simp

theorem comma_not_mem_tsPrefix (mk : MarkerSpec) :
    ',' ∉ padNat 2 mk.h ++ ':' :: (padNat 2 mk.m ++ ':' :: padNat 2 mk.s) := by
  intro hm
  simp only [List.mem_append, List.mem_cons] at hm
  rcases hm with h | h | h | h | h
  · exact not_mem_padNat (by decide) 2 mk.h h
  · exact absurd h (by decide)
  · exact not_mem_padNat (by decide) 2 mk.m h
  · exact absurd h (by decide)
  · exact not_mem_padNat (by decide) 2 mk.s h

theorem pySplit2_renderMarkerLine (mk : MarkerSpec) :
    pySplit2 ',' (renderMarkerLine mk)
      = some (padNat 2 mk.h ++ ':' :: (padNat 2 mk.m ++ ':' :: padNat 2 mk.s),
              padNat 3 mk.ms, mk.title) := by
  have hshape : renderMarkerLine mk
      = (padNat 2 mk.h ++ ':' :: (padNat 2 mk.m ++ ':' :: padNat 2 mk.s))
        ++ ',' :: (padNat 3 mk.ms ++ ',' :: mk.title) := by
    simp [renderMarkerLine, renderTs, List.append_assoc]
  rw [hshape]
  exact pySplit2_two_sep (comma_not_mem_tsPrefix mk) (not_mem_padNat (by decide) 3 mk.ms)

theorem tsPrefix_full (mk : MarkerSpec) :
    (padNat 2 mk.h ++ ':' :: (padNat 2 mk.m ++ ':' :: padNat 2 mk.s)) ++ ',' :: padNat 3 mk.ms
      = renderTs mk.h mk.m mk.s mk.ms := by
  simp [renderTs, List.append_assoc]

theorem parse_tsPrefix (mk : MarkerSpec) :
    parse_timestamp_srt
        ((padNat 2 mk.h ++ ':' :: (padNat 2 mk.m ++ ':' :: padNat 2 mk.s)) ++ ',' :: padNat 3 mk.ms)
      = some (markerVal mk) := by
  rw [tsPrefix_full]
  exact parse_timestamp_renderTs mk.h mk.m mk.s mk.ms

theorem pyStrip_eq_self_of_ends {l : List Char}
    (h1 : ∀ c, l.head? = some c → pyIsSpace c = false)
    (h2 : ∀ c, l.getLast? = some c → pyIsSpace c = false) : pyStrip l = l := by
  unfold pyStrip
  have hd : l.dropWhile pyIsSpace = l := by
    cases l with
    | nil => rfl
    | cons a t => exact List.dropWhile_cons_of_neg (by simp [h1 a rfl])
  rw [hd]
  have hr : l.reverse.dropWhile pyIsSpace = l.reverse := by
    rcases hrev : l.reverse with _ | ⟨a, t⟩
    · rfl
    · have hl : l.getLast? = some a := by rw [← List.head?_reverse, hrev]; rfl
      rw [List.dropWhile_cons_of_neg (by simp [h2 a hl])]
  rw [hr, List.reverse_reverse]

theorem pyStrip_renderMarkerLine (mk : MarkerSpec) (hst : pyStrip mk.title = mk.title) :
    pyStrip (renderMarkerLine mk) = renderMarkerLine mk := by
  apply pyStrip_eq_self_of_ends
  · intro c hc
    have hshape : renderMarkerLine mk
        = (padNat 2 mk.h ++ ':' :: (padNat 2 mk.m ++ ':' :: padNat 2 mk.s))
          ++ ',' :: (padNat 3 mk.ms ++ ',' :: mk.title) := by
      simp [renderMarkerLine, renderTs, List.append_assoc]
    rw [hshape] at hc
    rcases hp : padNat 2 mk.h with _ | ⟨d, ds⟩
    · exact absurd hp (padNat_ne_nil 2 mk.h)
    · rw [hp] at hc
      simp only [List.cons_append, List.head?, Option.some_inj] at hc
      subst hc
      have hd := padNat_all_digits 2 mk.h d (by rw [hp]; exact List.mem_cons_self d ds)
      exact digit_not_space hd
  · intro c hc
    unfold renderMarkerLine at hc
    rw [List.getLast?_append_cons] at hc
    rcases ht : mk.title with _ | ⟨a, t⟩
    · rw [ht] at hc
      simp at hc
      subst hc
      decide
    · rw [ht, List.getLast?_cons_cons] at hc
      apply pyStripGetLastNotSpace (s := mk.title)
      rw [hst, ht]
      exact hc

/-! ## Claim C5: `parse_chapter_file` on well-formed marker logs -/

theorem exceptBindOk {ε α β : Type} (a : α) (f : α → Except ε β) :
    (Except.ok a : Except ε α) >>= f = f a := rfl

theorem ofOptionSome {α : Type} (a : α) (msg : List Char) :
    ofOption (some a) msg = .ok a := rfl

theorem parseChapterLoop_render :
    ∀ (mks : List MarkerSpec) (i : ℕ),
      (∀ mk ∈ mks, pyStrip mk.title = mk.title) →
      parseChapterLoop i (mks.map renderMarkerLine) = .ok (chaptersFromSpec i mks) := by
  intro mks
  induction mks with
  | nil => intro i _; rfl
  | cons mk rest ih =>
    intro i hstrip
    cases rest with
    | nil => rfl
    | cons mk2 rest2 =>
      have hrec := ih (i + 1) (fun m hm => hstrip m (List.mem_cons_of_mem mk hm))
      simp only [List.map_cons] at hrec ⊢
      simp only [parseChapterLoop, pySplit2_renderMarkerLine, ofOptionSome, exceptBindOk,
        parse_tsPrefix, hrec, chaptersFromSpec, hstrip mk (List.mem_cons_self mk _)]

theorem chaptersFromSpec_length :
    ∀ (mks : List MarkerSpec) (i : ℕ), (chaptersFromSpec i mks).length = mks.length - 1 := by
  intro mks
  induction mks with
  | nil => intro i; rfl
  | cons mk rest ih =>
    intro i
    cases rest with
    | nil => rfl
    | cons mk2 rest2 =>
      simp only [chaptersFromSpec, List.length_cons]
      rw [ih (i + 1)]
      simp

theorem chaptersFromSpec_getD :
    ∀ (mks : List MarkerSpec) (i j : ℕ), j < (chaptersFromSpec i mks).length →
      (chaptersFromSpec i mks).getD j ⟨0, 0, 0, []⟩ =
        { id := (i : ℤ) + (j : ℤ) + 1,
          start := markerVal (mks.getD j ⟨0, 0, 0, 0, []⟩),
          stop := markerVal (mks.getD (j + 1) ⟨0, 0, 0, 0, []⟩),
          title := (mks.getD j ⟨0, 0, 0, 0, []⟩).title } := by
  intro mks
  induction mks with
  | nil => intro i j h; simp [chaptersFromSpec] at h
  | cons mk rest ih =>
    intro i j h
    cases rest with
    | nil => simp [chaptersFromSpec] at h
    | cons mk2 rest2 =>
      cases j with
      | zero => simp [chaptersFromSpec, List.getD_cons_zero]
      | succ j' =>
        simp only [chaptersFromSpec, List.getD_cons_succ]
        simp only [chaptersFromSpec, List.length_cons] at h
        have h' : j' < (chaptersFromSpec (i + 1) (mk2 :: rest2)).length := by omega
        rw [ih (i + 1) j' h']
        congr 1
        push_cast
        ring

theorem renderMarkerLine_ne_nil (mk : MarkerSpec) : renderMarkerLine mk ≠ [] := by
  simp [renderMarkerLine]

theorem parse_chapter_file_render (mks : List MarkerSpec)
    (hstrip : ∀ mk ∈ mks, pyStrip mk.title = mk.title) :
    parse_chapter_file (mks.map renderMarkerLine) = .ok (chaptersFromSpec 0 mks) := by
  unfold parse_chapter_file
  have hkeep : ((mks.map renderMarkerLine).map pyStrip).filter (fun l => !l.isEmpty)
      = mks.map renderMarkerLine := by
    rw [List.map_map]
    have hmap : mks.map (pyStrip ∘ renderMarkerLine) = mks.map renderMarkerLine := by
      apply List.map_congr_left
      intro mk hmk
      exact pyStrip_renderMarkerLine mk (hstrip mk hmk)
    rw [hmap]
    apply List.filter_eq_self.2
    intro a ha
    rcases List.mem_map.1 ha with ⟨mk, _, rfl⟩
    rcases hr : renderMarkerLine mk with _ | _
    · exact absurd hr (renderMarkerLine_ne_nil mk)
    · simp
  rw [hkeep]
  exact parseChapterLoop_render mks 0 hstrip

/-- **C5 counterexample.**  The claim asserts the two chapters built from
markers (0, "Chapter 1"), (500, "Chapter 2") and a sentinel at 1000 carry
ids 0 and 1.  The code assigns `id = i + 1`, so the ids are 1 and 2. -/
theorem claim_C5_counterexample :
    parse_chapter_file
        [s2l "00:00:00,000,Chapter 1", s2l "00:08:20,000,Chapter 2", s2l "00:16:40,000,"]
      = .ok [{ id := 1, start := 0, stop := 500, title := s2l "Chapter 1" },
             { id := 2, start := 500, stop := 1000, title := s2l "Chapter 2" }] ∧
    ((1 : ℤ) ≠ 0 ∧ (2 : ℤ) ≠ 1) := by
  constructor
  · have hlines : [s2l "00:00:00,000,Chapter 1", s2l "00:08:20,000,Chapter 2",
        s2l "00:16:40,000,"]
        = ([⟨0, 0, 0, 0, s2l "Chapter 1"⟩, ⟨0, 8, 20, 0, s2l "Chapter 2"⟩,
            ⟨0, 16, 40, 0, []⟩] : List MarkerSpec).map renderMarkerLine := by decide
    rw [hlines, parse_chapter_file_render _ (by decide)]
    simp only [chaptersFromSpec]
    norm_num [markerVal, tsVal]
  · decide

/-- **C5 amended.**  For every marker log of at least two well-formed
lines `HH:MM:SS,mmm,title` (titles already whitespace-trimmed),
`parse_chapter_file` returns one chapter per marker except the sentinel,
with `start` the marker's own timestamp, `stop` the next marker's
timestamp (sentinel included), title the marker's title, and sequential
ids **starting at 1** (`id = position + 1`, not 0); consequently chapters
are contiguous and non-overlapping and the last chapter's `stop` is the
sentinel's timestamp. -/
theorem claim_C5_chapters_one_based (mks : List MarkerSpec)
    (hstrip : ∀ mk ∈ mks, pyStrip mk.title = mk.title)
    (h2 : 2 ≤ mks.length) :
    ∃ chs, parse_chapter_file (mks.map renderMarkerLine) = .ok chs ∧
      chs.length = mks.length - 1 ∧
      (∀ j, j < chs.length →
        chs.getD j ⟨0, 0, 0, []⟩ =
          { id := (j : ℤ) + 1,
            start := markerVal (mks.getD j ⟨0, 0, 0, 0, []⟩),
            stop := markerVal (mks.getD (j + 1) ⟨0, 0, 0, 0, []⟩),
            title := (mks.getD j ⟨0, 0, 0, 0, []⟩).title }) ∧
      (∀ j, j + 1 < chs.length →
        (chs.getD j ⟨0, 0, 0, []⟩).stop = (chs.getD (j + 1) ⟨0, 0, 0, []⟩).start) ∧
      (chs.getD (chs.length - 1) ⟨0, 0, 0, []⟩).stop
        = markerVal (mks.getD (mks.length - 1) ⟨0, 0, 0, 0, []⟩) := by
  refine ⟨chaptersFromSpec 0 mks, parse_chapter_file_render mks hstrip, ?_, ?_, ?_, ?_⟩
  · exact chaptersFromSpec_length mks 0
  · intro j hj
    rw [chaptersFromSpec_getD mks 0 j hj]
    norm_num
  · intro j hj
    rw [chaptersFromSpec_getD mks 0 j (by omega), chaptersFromSpec_getD mks 0 (j + 1) hj]
  · have hlen := chaptersFromSpec_length mks 0
    have hpos : 0 < (chaptersFromSpec 0 mks).length := by omega
    rw [chaptersFromSpec_getD mks 0 _ (by omega)]
    have : (chaptersFromSpec 0 mks).length - 1 + 1 = mks.length - 1 := by omega
    rw [this]

/-- **C5 witness.**  The amended theorem applied to the claim's concrete
three-marker log. -/
theorem claim_C5_witness :
    ∃ chs, parse_chapter_file
        (([⟨0, 0, 0, 0, s2l "Chapter 1"⟩, ⟨0, 8, 20, 0, s2l "Chapter 2"⟩,
           ⟨0, 16, 40, 0, []⟩] : List MarkerSpec).map renderMarkerLine) = .ok chs ∧
      chs.length = 2 ∧
      (∀ j, j < chs.length →
        chs.getD j ⟨0, 0, 0, []⟩ =
          { id := (j : ℤ) + 1,
            start := markerVal (([⟨0, 0, 0, 0, s2l "Chapter 1"⟩, ⟨0, 8, 20, 0, s2l "Chapter 2"⟩,
                ⟨0, 16, 40, 0, []⟩] : List MarkerSpec).getD j ⟨0, 0, 0, 0, []⟩),
            stop := markerVal (([⟨0, 0, 0, 0, s2l "Chapter 1"⟩, ⟨0, 8, 20, 0, s2l "Chapter 2"⟩,
                ⟨0, 16, 40, 0, []⟩] : List MarkerSpec).getD (j + 1) ⟨0, 0, 0, 0, []⟩),
            title := (([⟨0, 0, 0, 0, s2l "Chapter 1"⟩, ⟨0, 8, 20, 0, s2l "Chapter 2"⟩,
                ⟨0, 16, 40, 0, []⟩] : List MarkerSpec).getD j ⟨0, 0, 0, 0, []⟩).title }) := by
  obtain ⟨chs, h1, h2, h3, _, _⟩ := claim_C5_chapters_one_based
    [⟨0, 0, 0, 0, s2l "Chapter 1"⟩, ⟨0, 8, 20, 0, s2l "Chapter 2"⟩, ⟨0, 16, 40, 0, []⟩]
    (by decide) (by decide)
  exact ⟨chs, h1, h2, h3⟩

/-! ## Claim C9: the marker log written by `_process_segment` versus
`parse_chapter_file` -/

/-- **C9 counterexample.**  The claim says *every* marker log produced by
`_process_segment` with comma-free titles makes `parse_chapter_file`
raise.  A log holding a single marker line (one detected chapter, e.g.
`"0.0, Chapter 1"`) is a counterexample: the loop over `lines[:-1]` never
runs and the parser silently returns `ok []` instead of raising. -/
theorem claim_C9_counterexample :
    parse_chapter_file [markerLogLine (s2l "0.0") (s2l " Chapter 1")] = .ok [] := rfl

/-- **C9 amended.**  For every marker log produced by
`_process_segment` — lines `f"{segment.start + offset}, {segment.text}"`,
where the float `repr` time field and the title contain no comma — with
at least **two** lines, `parse_chapter_file` raises an unhandled
`ValueError`: each line holds exactly one comma, so the
`line.split(",", 2)` three-way unpacking fails on the first processed
line. -/
theorem claim_C9_two_marker_log_raises (entries : List (List Char × List Char))
    (hcf : ∀ p ∈ entries, ',' ∉ p.1 ∧ ',' ∉ p.2)
    (hlen : 2 ≤ entries.length) :
    parse_chapter_file (entries.map (fun p => markerLogLine p.1 p.2))
      = .error (s2l "ValueError: not enough values to unpack") := by
  unfold parse_chapter_file
  have hkeep : ((entries.map (fun p => markerLogLine p.1 p.2)).map pyStrip).filter
      (fun l => !l.isEmpty) = (entries.map (fun p => pyStrip (markerLogLine p.1 p.2))) := by
    rw [List.map_map]
    apply List.filter_eq_self.2
    intro a ha
    rcases List.mem_map.1 ha with ⟨p, hp, rfl⟩
    have hmem : ',' ∈ pyStrip (markerLogLine p.1 p.2) := by
      apply mem_pyStrip_of_not_space (by decide)
      unfold markerLogLine
      simp
    simp only [Function.comp]
    rcases hst : pyStrip (markerLogLine p.1 p.2) with _ | _
    · rw [hst] at hmem; simp at hmem
    · simp
  rw [hkeep]
  rcases entries with _ | ⟨p, _ | ⟨q, t⟩⟩
  · simp at hlen
  · simp at hlen
  · simp only [List.map_cons]
    have hcount : (pyStrip (markerLogLine p.1 p.2)).count ',' < 2 := by
      have h1 := count_pyStrip_le ',' (markerLogLine p.1 p.2)
      rw [markerLogLine_count _ _ (hcf p (by simp)).1 (hcf p (by simp)).2] at h1
      omega
    simp only [parseChapterLoop]
    rw [pySplit2_of_count_lt_two hcount]
    rfl

/-- **C9 witness.**  A two-marker log (time fields are the float `repr`s
`"0.0"` and `"95.5"`, titles comma-free) makes the parser raise. -/
theorem claim_C9_witness :
    parse_chapter_file
        [markerLogLine (s2l "0.0") (s2l " Chapter 1"),
         markerLogLine (s2l "95.5") (s2l " Chapter 2")]
      = .error (s2l "ValueError: not enough values to unpack") :=
  claim_C9_two_marker_log_raises
    [(s2l "0.0", s2l " Chapter 1"), (s2l "95.5", s2l " Chapter 2")]
    (by decide) (by decide)

/-! ## Claim C3: the timestamp codec round trip -/

theorem pyFloorDiv_natCast (n d : ℕ) : pyFloorDiv (n : ℤ) (d : ℤ) = ((n / d : ℕ) : ℤ) := by
  unfold pyFloorDiv
  have h1 : (((n : ℤ)) : ℚ) = (n : ℚ) := by push_cast; ring
  have h2 : (((d : ℤ)) : ℚ) = (d : ℚ) := by push_cast; ring
  rw [h1, h2]
  exact_mod_cast Rat.floor_natCast_div_natCast n d

theorem pyIntMod_natCast (n d : ℕ) :
    pyIntMod (n : ℤ) (d : ℤ) = ((n % d : ℕ) : ℤ) := by
  unfold pyIntMod
  rw [pyFloorDiv_natCast]
  have h : d * (n / d) + n % d = n := Nat.div_add_mod n d
  have h' : ((d * (n / d) + n % d : ℕ) : ℤ) = ((n : ℕ) : ℤ) := by exact_mod_cast h
  push_cast at h' ⊢
  linarith

theorem pyFloorDiv60 (n : ℕ) : pyFloorDiv (n : ℤ) 60 = ((n / 60 : ℕ) : ℤ) := by
  have h : (60 : ℤ) = ((60 : ℕ) : ℤ) := rfl
  rw [h, pyFloorDiv_natCast]

theorem pyIntMod60 (n : ℕ) : pyIntMod (n : ℤ) 60 = ((n % 60 : ℕ) : ℤ) := by
  have h : (60 : ℤ) = ((60 : ℕ) : ℤ) := rfl
  rw [h, pyIntMod_natCast]

theorem format_timestamp_decompose (x : ℚ) (hx : 0 ≤ x) :
    format_timestamp_srt x 0
      = renderTs (⌊x⌋.toNat / 3600) (⌊x⌋.toNat / 60 % 60) (⌊x⌋.toNat % 60)
          (⌊(x - ⌊x⌋) * 1000⌋.toNat) := by
  have hfr : (0 : ℚ) ≤ (x - ⌊x⌋) * 1000 := by
    have h0 : (0 : ℚ) ≤ x - ⌊x⌋ := by
      have := Int.floor_le x
      linarith
    positivity
  have hnn : 0 ≤ ⌊(x - ⌊x⌋) * 1000⌋ := Int.floor_nonneg.2 hfr
  have hms : pyTrunc (pyMod1 x * 1000) = ((⌊(x - ⌊x⌋) * 1000⌋.toNat : ℕ) : ℤ) := by
    unfold pyTrunc pyMod1
    rw [if_pos hfr]
    omega
  have hflo : 0 ≤ ⌊x⌋ := Int.floor_nonneg.2 hx
  have hs1 : pyTrunc x = ((⌊x⌋.toNat : ℕ) : ℤ) := by
    unfold pyTrunc
    rw [if_pos hx]
    omega
  have hpad : ∀ (w k : ℕ), padInt w ((k : ℕ) : ℤ) = padNat w k := by
    intro w k
    unfold padInt
    rw [if_neg (by omega)]
    rfl
  simp only [format_timestamp_srt, renderTs, add_zero, pyDivMod]
  rw [hms, hs1]
  rw [pyFloorDiv60, pyFloorDiv60, pyIntMod60, pyIntMod60,
    hpad, hpad, hpad, hpad, Nat.div_div_eq_div_mul]

/-- **C3** (confirmed).  For every non-negative number of seconds `x`,
`format_timestamp_srt` renders exactly the fields
`⌊x⌋/3600 : ⌊x⌋/60 % 60 : ⌊x⌋ % 60 , ⌊frac(x)·1000⌋` — the hours field is
the full quotient, never reduced modulo 24 — and decoding the encoded
timestamp recovers `x` to within one millisecond:
`|parse_timestamp_srt (format_timestamp_srt x 0) - x| ≤ 1/1000`. -/
theorem claim_C3_roundtrip (x : ℚ) (hx : 0 ≤ x) :
    format_timestamp_srt x 0
      = renderTs (⌊x⌋.toNat / 3600) (⌊x⌋.toNat / 60 % 60) (⌊x⌋.toNat % 60)
          (⌊(x - ⌊x⌋) * 1000⌋.toNat) ∧
    ∃ y, parse_timestamp_srt (format_timestamp_srt x 0) = some y ∧ |y - x| ≤ 1 / 1000 := by
  have hdec := format_timestamp_decompose x hx
  refine ⟨hdec, tsVal (⌊x⌋.toNat / 3600) (⌊x⌋.toNat / 60 % 60) (⌊x⌋.toNat % 60)
    (⌊(x - ⌊x⌋) * 1000⌋.toNat), ?_, ?_⟩
  · rw [hdec]
    exact parse_timestamp_renderTs _ _ _ _
  · have hflo : (0 : ℤ) ≤ ⌊x⌋ := Int.floor_nonneg.2 hx
    have hfr : (0 : ℚ) ≤ (x - ⌊x⌋) * 1000 := by
      have := Int.floor_le x
      nlinarith
    have hnn : (0 : ℤ) ≤ ⌊(x - ⌊x⌋) * 1000⌋ := Int.floor_nonneg.2 hfr
    have hxn : ((⌊x⌋.toNat : ℕ) : ℚ) = ((⌊x⌋ : ℤ) : ℚ) := by
      have h1 : ((⌊x⌋.toNat : ℕ) : ℤ) = ⌊x⌋ := Int.toNat_of_nonneg hflo
      exact_mod_cast h1
    have hmn : ((⌊(x - ⌊x⌋) * 1000⌋.toNat : ℕ) : ℚ) = ((⌊(x - ⌊x⌋) * 1000⌋ : ℤ) : ℚ) := by
      have h1 : ((⌊(x - ⌊x⌋) * 1000⌋.toNat : ℕ) : ℤ) = ⌊(x - ⌊x⌋) * 1000⌋ :=
        Int.toNat_of_nonneg hnn
      exact_mod_cast h1
    have hsum : (⌊x⌋.toNat / 3600) * 3600 + (⌊x⌋.toNat / 60 % 60) * 60 + ⌊x⌋.toNat % 60
        = ⌊x⌋.toNat := by omega
    have hsumq : ((⌊x⌋.toNat / 3600 : ℕ) : ℚ) * 3600 + ((⌊x⌋.toNat / 60 % 60 : ℕ) : ℚ) * 60
        + ((⌊x⌋.toNat % 60 : ℕ) : ℚ) = ((⌊x⌋.toNat : ℕ) : ℚ) := by
      exact_mod_cast hsum
    unfold tsVal
    rw [hsumq, hxn, hmn]
    have hlb : ((⌊(x - ⌊x⌋) * 1000⌋ : ℤ) : ℚ) ≤ (x - ⌊x⌋) * 1000 := Int.floor_le _
    have hub : (x - ⌊x⌋) * 1000 < ((⌊(x - ⌊x⌋) * 1000⌋ : ℤ) : ℚ) + 1 := Int.lt_floor_add_one _
    rw [abs_le]
    constructor <;> nlinarith

/-- **C3 witness.**  The round trip at `x = 90000.25` seconds (25 hours):
the rendered timestamp is `25:00:00,250` (hours field 25, not wrapped)
and decoding recovers `x` within a millisecond. -/
theorem claim_C3_witness :
    ((0 : ℚ) ≤ 90000 + 1/4) ∧
    format_timestamp_srt (90000 + 1/4) 0 = s2l "25:00:00,250" ∧
    ∃ y, parse_timestamp_srt (format_timestamp_srt (90000 + 1/4) 0) = some y ∧
      |y - (90000 + 1/4)| ≤ 1/1000 := by
  have h0 : (0 : ℚ) ≤ 90000 + 1/4 := by norm_num
  obtain ⟨h1, h2⟩ := claim_C3_roundtrip (90000 + 1/4) h0
  refine ⟨h0, ?_, h2⟩
  rw [h1]
  have hf : ⌊(90000 + 1/4 : ℚ)⌋ = 90000 := by
    rw [Int.floor_eq_iff]
    constructor <;> norm_num
  rw [hf]
  have hsub : ((90000 + 1/4 : ℚ) - ((90000 : ℤ) : ℚ)) = 1/4 := by push_cast; ring
  rw [hsub]
  have h250 : ⌊(1/4 : ℚ) * 1000⌋ = 250 := by norm_num [Int.floor_eq_iff]
  rw [h250]
  decide

/-! ## Claim C7: `find_audio_files` and `categorize_files` -/

theorem lexLe_cons_iff {x y : Char} {xs ys : List Char} :
    lexLe (x :: xs) (y :: ys) = true ↔ x < y ∨ (x = y ∧ lexLe xs ys = true) := by
  show (if x < y then true else if x = y then lexLe xs ys else false) = true ↔ _
  split_ifs with h1 h2
  · simp [h1]
  · simp [h1, h2]
  · simp [h1, h2]

theorem lexLe_trans : ∀ (a b c : List Char),
    lexLe a b = true → lexLe b c = true → lexLe a c = true := by
  intro a
  induction a with
  | nil => intro b c _ _; rfl
  | cons x xs ih =>
    intro b c h1 h2
    cases b with
    | nil => simp [lexLe] at h1
    | cons y ys =>
      cases c with
      | nil => simp [lexLe] at h2
      | cons z zs =>
        rw [lexLe_cons_iff] at h1 h2 ⊢
        rcases h1 with h1 | ⟨rfl, h1⟩
        · rcases h2 with h2 | ⟨rfl, h2⟩
          · exact Or.inl (lt_trans h1 h2)
          · exact Or.inl h1
        · rcases h2 with h2 | ⟨rfl, h2⟩
          · exact Or.inl h2
          · exact Or.inr ⟨rfl, ih ys zs h1 h2⟩

theorem lexLe_total : ∀ (a b : List Char), lexLe a b = true ∨ lexLe b a = true := by
  intro a
  induction a with
  | nil => intro b; exact Or.inl rfl
  | cons x xs ih =>
    intro b
    cases b with
    | nil => exact Or.inr rfl
    | cons y ys =>
      rcases lt_trichotomy x y with h | rfl | h
      · exact Or.inl (lexLe_cons_iff.2 (Or.inl h))
      · rcases ih ys with h | h
        · exact Or.inl (lexLe_cons_iff.2 (Or.inr ⟨rfl, h⟩))
        · exact Or.inr (lexLe_cons_iff.2 (Or.inr ⟨rfl, h⟩))
      · exact Or.inr (lexLe_cons_iff.2 (Or.inl h))

theorem categorizeLoop_eq (files : List AudioFile) :
    categorizeLoop files
      = (files.filter (fun f => f.hasSrt && f.srtValid),
         files.filter (fun f => f.hasSrt && !f.srtValid),
         files.filter (fun f => !f.hasSrt || !f.srtValid)) := by
  induction files with
  | nil => rfl
  | cons f rest ih =>
    rcases h1 : f.hasSrt with _ | _ <;> rcases h2 : f.srtValid with _ | _ <;>
      simp [categorizeLoop, ih, List.filter_cons, h1, h2]

/-- **C7** (confirmed).  `find_audio_files` returns the discovered files
as a lexicographically sorted permutation (deterministic discovery
order); `categorize_files` puts every file without a transcript in the
work queue (`unprocessed_files`), puts every file whose transcript fails
validation in **both** `partial_files` and the work queue, and the work
queue is exactly the discovery-ordered sublist of files that either lack
a transcript or fail validation — the union of the no-transcript files
and the partial files in discovery order. -/
theorem claim_C7_classifier (found : List AudioFile) :
    (find_audio_files found).Perm found ∧
    List.Sorted (fun a b => lexLe a.path b.path = true) (find_audio_files found) ∧
    (∀ f ∈ find_audio_files found, f.hasSrt = false → f ∈ (categorize_files found).2.2) ∧
    (∀ f ∈ find_audio_files found, f.hasSrt = true → f.srtValid = false →
      f ∈ (categorize_files found).2.1 ∧ f ∈ (categorize_files found).2.2) ∧
    (categorize_files found).2.1
      = (find_audio_files found).filter (fun f => f.hasSrt && !f.srtValid) ∧
    (categorize_files found).2.2
      = (find_audio_files found).filter (fun f => !f.hasSrt || !f.srtValid) ∧
    (∀ f, f ∈ (categorize_files found).2.2 ↔
      (f ∈ (find_audio_files found).filter (fun f => !f.hasSrt) ∨
        f ∈ (categorize_files found).2.1)) ∧
    (categorize_files found).2.2.Sublist (find_audio_files found) := by
  have hcat : categorize_files found
      = ((find_audio_files found).filter (fun f => f.hasSrt && f.srtValid),
         (find_audio_files found).filter (fun f => f.hasSrt && !f.srtValid),
         (find_audio_files found).filter (fun f => !f.hasSrt || !f.srtValid)) := by
    unfold categorize_files
    exact categorizeLoop_eq _
  refine ⟨List.perm_insertionSort _ _, ?_, ?_, ?_, ?_, ?_, ?_, ?_⟩
  · haveI hT : IsTrans AudioFile (fun a b => lexLe a.path b.path = true) :=
      ⟨fun a b c h1 h2 => lexLe_trans a.path b.path c.path h1 h2⟩
    haveI hO : IsTotal AudioFile (fun a b => lexLe a.path b.path = true) :=
      ⟨fun a b => lexLe_total a.path b.path⟩
    exact List.sorted_insertionSort _ _
  · intro f hf hsrt
    rw [hcat]
    exact List.mem_filter.2 ⟨hf, by simp [hsrt]⟩
  · intro f hf hsrt hval
    rw [hcat]
    exact ⟨List.mem_filter.2 ⟨hf, by simp [hsrt, hval]⟩,
           List.mem_filter.2 ⟨hf, by simp [hsrt, hval]⟩⟩
  · rw [hcat]
  · rw [hcat]
  · intro f
    rw [hcat]
    simp only [List.mem_filter]
    rcases h1 : f.hasSrt with _ | _ <;> rcases h2 : f.srtValid with _ | _ <;> simp [h1, h2]
  · rw [hcat]
    exact List.filter_sublist _

/-- **C7 witness.**  Three concrete files (one without a transcript, one
with an invalid transcript, one valid), discovered out of order: the
partial list is exactly the invalid file, the work queue is the
no-transcript file followed by the invalid file in sorted path order,
and the invalid file is a member of the partial list via the theorem's
conditional clause. -/
theorem claim_C7_witness :
    (categorize_files [⟨s2l "b.mp3", true, false⟩, ⟨s2l "a.mp3", false, false⟩,
        ⟨s2l "c.mp3", true, true⟩]).2.1 = [⟨s2l "b.mp3", true, false⟩] ∧
    (categorize_files [⟨s2l "b.mp3", true, false⟩, ⟨s2l "a.mp3", false, false⟩,
        ⟨s2l "c.mp3", true, true⟩]).2.2
      = [⟨s2l "a.mp3", false, false⟩, ⟨s2l "b.mp3", true, false⟩] ∧
    (⟨s2l "b.mp3", true, false⟩ : AudioFile) ∈ (categorize_files [⟨s2l "b.mp3", true, false⟩,
        ⟨s2l "a.mp3", false, false⟩, ⟨s2l "c.mp3", true, true⟩]).2.1 := by
  obtain ⟨_, _, h3, h4, h5, h6, _, _⟩ := claim_C7_classifier
    [⟨s2l "b.mp3", true, false⟩, ⟨s2l "a.mp3", false, false⟩, ⟨s2l "c.mp3", true, true⟩]
  refine ⟨h5.trans (by decide), h6.trans (by decide), ?_⟩
  exact (h4 ⟨s2l "b.mp3", true, false⟩ (by decide) (by decide) (by decide)).1

/-! ## Claim C8: `BookTranscriber._clean_detection_files` -/

theorem mem_removeFile {f n : List Char} {fs : List (List Char)} :
    f ∈ removeFile n fs ↔ f ∈ fs ∧ f ≠ n := by
  unfold removeFile
  rw [List.mem_filter]
  simp

/-- **C8 amended.**  `BookTranscriber._clean_detection_files` removes
exactly the files `<audiofile>.srt` and `<audiofile>.chapters` for every
discovered audio file, silently ignoring missing ones, and removes
nothing else — in particular the directory-level marker log
`transcription.chapters` that `_process_segment` appends to is *not*
deleted, so a prior run's marker log does survive the cleanup. -/
theorem claim_C8_clean_scope :
    ∀ (audio : List (List Char)) (fs : List (List Char)),
    (∀ a ∈ audio, (a ++ s2l ".srt") ∉ clean_detection_files audio fs ∧
                  (a ++ s2l ".chapters") ∉ clean_detection_files audio fs) ∧
    (∀ f ∈ fs, (∀ a ∈ audio, f ≠ a ++ s2l ".srt" ∧ f ≠ a ++ s2l ".chapters") →
      f ∈ clean_detection_files audio fs) ∧
    (∀ f ∈ clean_detection_files audio fs, f ∈ fs) := by
  intro audio
  induction audio with
  | nil =>
    intro fs
    refine ⟨by simp, ?_, ?_⟩
    · intro f hf _
      exact hf
    · intro f hf
      exact hf
  | cons a rest ih =>
    intro fs
    have hstep : clean_detection_files (a :: rest) fs
        = clean_detection_files rest
            (removeFile (a ++ s2l ".chapters") (removeFile (a ++ s2l ".srt") fs)) := rfl
    obtain ⟨ih1, ih2, ih3⟩ :=
      ih (removeFile (a ++ s2l ".chapters") (removeFile (a ++ s2l ".srt") fs))
    refine ⟨?_, ?_, ?_⟩
    · intro a' ha'
      rcases List.mem_cons.1 ha' with rfl | ha'
      · rw [hstep]
        constructor
        · intro hmem
          have := ih3 _ hmem
          rw [mem_removeFile, mem_removeFile] at this
          exact this.1.2 rfl
        · intro hmem
          have := ih3 _ hmem
          rw [mem_removeFile] at this
          exact this.2 rfl
      · rw [hstep]
        exact ih1 a' ha'
    · intro f hf hcond
      rw [hstep]
      apply ih2
      · rw [mem_removeFile, mem_removeFile]
        have := hcond a (List.mem_cons_self a rest)
        exact ⟨⟨hf, this.1⟩, this.2⟩
      · intro a' ha'
        exact hcond a' (List.mem_cons_of_mem a ha')
    · intro f hf
      rw [hstep] at hf
      have := ih3 f hf
      rw [mem_removeFile, mem_removeFile] at this
      exact this.1.1

/-- **C8 counterexample.**  The claim concludes that no prior run's
transcript or marker log survives.  The marker log written by
`_process_segment` is `{audio_directory}/transcription.chapters`, which
is not of the form `<audiofile>.srt`/`<audiofile>.chapters` and survives
`_clean_detection_files` unchanged. -/
theorem claim_C8_counterexample :
    clean_detection_files [s2l "/d/a.mp3"]
        [s2l "/d/a.mp3", s2l "/d/a.mp3.srt", s2l "/d/a.mp3.chapters",
         markerLogPath (s2l "/d")]
      = [s2l "/d/a.mp3", markerLogPath (s2l "/d")] ∧
    markerLogPath (s2l "/d") ∈ clean_detection_files [s2l "/d/a.mp3"]
        [s2l "/d/a.mp3", s2l "/d/a.mp3.srt", s2l "/d/a.mp3.chapters",
         markerLogPath (s2l "/d")] := by
  constructor <;> decide

/-- **C8 witness.**  The frame theorem applied to a concrete directory:
the per-file `.srt` is gone, while the marker log
`/d/transcription.chapters` is still present. -/
theorem claim_C8_witness :
    (s2l "/d/a.mp3" ++ s2l ".srt") ∉ clean_detection_files [s2l "/d/a.mp3"]
        [s2l "/d/a.mp3", s2l "/d/a.mp3.srt", s2l "/d/a.mp3.chapters",
         markerLogPath (s2l "/d")] ∧
    markerLogPath (s2l "/d") ∈ clean_detection_files [s2l "/d/a.mp3"]
        [s2l "/d/a.mp3", s2l "/d/a.mp3.srt", s2l "/d/a.mp3.chapters",
         markerLogPath (s2l "/d")] := by
  obtain ⟨h1, h2, _⟩ := claim_C8_clean_scope [s2l "/d/a.mp3"]
    [s2l "/d/a.mp3", s2l "/d/a.mp3.srt", s2l "/d/a.mp3.chapters", markerLogPath (s2l "/d")]
  exact ⟨(h1 (s2l "/d/a.mp3") (by decide)).1,
         h2 (markerLogPath (s2l "/d")) (by decide) (by decide)⟩

/-! ## Claim C2: offset stitching across sequential files -/

/-- **C2** (code bug).  Two sequential files A (segments ending at 50
and 95 s, reported duration 100 s) and B (one segment 0–40 s) are run
through the `transcribe.py` driver loop.  A's entries get indices 1, 2
and absolute end-times 50, 95.  The claim requires B's first index to be
A's last index + 1 = 3 and B's starts to be at least 95.  Instead
`transcribe_with_progress` returns `(index, info.duration) = (2, 100)`
— the bare enumeration count, not the offset index — and the driver
unpacks it as `offset_seconds, offset_index`, i.e. swapped, so B is
written with `offset_index = 100` and `offset_seconds = 2`: its only
entry has index 101 ≠ 3 and absolute start 2 < 95, and the final carried
state is `(offset_index, offset_seconds) = (50, 1)` (B's duration and
segment count). -/
theorem claim_C2_offsets_swapped :
    (bookDriver (0, 0)
        [([⟨0, 50, s2l "a"⟩, ⟨50, 95, s2l "b"⟩], 100), ([⟨0, 40, s2l "c"⟩], 50)]).map
        (fun out =>
          ((out.1.getD 0 []).map (fun e => e.number),
           (out.1.getD 0 []).map (fun e => e.stopAbs),
           (out.1.getD 1 []).map (fun e => e.number),
           (out.1.getD 1 []).map (fun e => e.startAbs),
           out.2))
      = some ([1, 2], [50, 95], [101], [2], (50, 1)) ∧
    ((101 : ℚ) ≠ 2 + 1) ∧ ¬((2 : ℚ) ≥ 95) := by
  refine ⟨?_, by norm_num, by norm_num⟩
  simp only [bookDriver, bookDriverStep, transcribe_with_progress, transcribeEntries]
  norm_num [List.range_succ, List.zip_cons_cons, List.zip_nil_right, List.zip_nil_left]

/-! ## Claim C10: the chapter tag in `process_file` -/

theorem processFileLoop_length :
    ∀ (segs : List Seg) (cur : Option (List Char)) (i : ℕ),
      (processFileLoop cur i segs).length = segs.length := by
  intro segs
  induction segs with
  | nil => intro cur i; rfl
  | cons s rest ih =>
    intro cur i
    simp only [processFileLoop, List.length_cons, ih]

theorem processFileLoop_textLine :
    ∀ (segs : List Seg) (cur : Option (List Char)) (i j : ℕ), j < segs.length →
      ((processFileLoop cur i segs).getD j ⟨0, [], [], []⟩).textLine =
        (match (segs.take (j + 1)).foldl
            (fun acc s => if is_chapter_title (pyStrip s.text) then some (pyStrip s.text) else acc)
            cur with
         | some c =>
           if !c.isEmpty && pyContains (pyStrip ((segs.getD j ⟨0, 0, []⟩).text)) c
           then s2l "[CHAPTER] " ++ pyStrip ((segs.getD j ⟨0, 0, []⟩).text)
           else pyStrip ((segs.getD j ⟨0, 0, []⟩).text)
         | none => pyStrip ((segs.getD j ⟨0, 0, []⟩).text)) := by
  intro segs
  induction segs with
  | nil => intro cur i j hj; simp at hj
  | cons s rest ih =>
    intro cur i j hj
    cases j with
    | zero =>
      simp only [processFileLoop, List.getD_cons_zero, List.take_succ_cons, List.take_zero,
        List.foldl_cons, List.foldl_nil]
    | succ j' =>
      simp only [processFileLoop, List.getD_cons_succ, List.take_succ_cons, List.foldl_cons]
      exact ih _ (i + 1) j' (by simpa using hj)

theorem startsWithSeq_refl : ∀ l : List Char, startsWithSeq l l = true := by
  intro l
  induction l with
  | nil => rfl
  | cons c rest ih => simp [startsWithSeq, ih]

theorem pyContains_refl (l : List Char) : pyContains l l = true := by
  cases l with
  | nil => rfl
  | cons c rest => simp [pyContains, startsWithSeq_refl]

theorem is_chapter_title_nil : is_chapter_title [] = false := by decide

/-- **C10** (confirmed).  `process_file` writes one block per segment; a
block's text line is `"[CHAPTER] " ++ text` — replacing the plain text
line, never written alongside it — exactly when the most recently
detected chapter title (over the segments processed so far, the current
one included) exists, is non-empty, and contains the segment's stripped
text as a substring; otherwise the plain stripped text is written.  In
particular the detecting segment itself is always written with the
prefix, and every subsequent segment whose stripped text is a substring
of the most recent title keeps the prefix until a new title is
detected. -/
theorem claim_C10_chapter_prefix (segs : List Seg) :
    (process_file segs).length = segs.length ∧
    (∀ j, j < segs.length →
      ((process_file segs).getD j ⟨0, [], [], []⟩).textLine =
        (match lastDetectedTitle (segs.take (j + 1)) with
         | some c =>
           if !c.isEmpty && pyContains (pyStrip ((segs.getD j ⟨0, 0, []⟩).text)) c
           then s2l "[CHAPTER] " ++ pyStrip ((segs.getD j ⟨0, 0, []⟩).text)
           else pyStrip ((segs.getD j ⟨0, 0, []⟩).text)
         | none => pyStrip ((segs.getD j ⟨0, 0, []⟩).text))) ∧
    (∀ j, j < segs.length →
      is_chapter_title (pyStrip ((segs.getD j ⟨0, 0, []⟩).text)) = true →
      ((process_file segs).getD j ⟨0, [], [], []⟩).textLine =
        s2l "[CHAPTER] " ++ pyStrip ((segs.getD j ⟨0, 0, []⟩).text)) := by
  have hmain : ∀ j, j < segs.length →
      ((process_file segs).getD j ⟨0, [], [], []⟩).textLine =
        (match lastDetectedTitle (segs.take (j + 1)) with
         | some c =>
           if !c.isEmpty && pyContains (pyStrip ((segs.getD j ⟨0, 0, []⟩).text)) c
           then s2l "[CHAPTER] " ++ pyStrip ((segs.getD j ⟨0, 0, []⟩).text)
           else pyStrip ((segs.getD j ⟨0, 0, []⟩).text)
         | none => pyStrip ((segs.getD j ⟨0, 0, []⟩).text)) := by
    intro j hj
    unfold process_file lastDetectedTitle
    exact processFileLoop_textLine segs none 1 j hj
  refine ⟨processFileLoop_length segs none 1, hmain, ?_⟩
  intro j hj hdet
  rw [hmain j hj]
  have hel : segs[j]? = some (segs.getD j ⟨0, 0, []⟩) := by
    rw [List.getElem?_eq_getElem hj, List.getD_eq_getElem segs _ hj]
  have htake : segs.take (j + 1) = segs.take j ++ [segs.getD j ⟨0, 0, []⟩] := by
    rw [List.take_succ, hel]
    rfl
  have hlast : lastDetectedTitle (segs.take (j + 1))
      = some (pyStrip ((segs.getD j ⟨0, 0, []⟩).text)) := by
    rw [htake]
    unfold lastDetectedTitle
    rw [List.foldl_append]
    simp only [List.foldl_cons, List.foldl_nil]
    rw [if_pos hdet]
  rw [hlast]
  have hne : pyStrip ((segs.getD j ⟨0, 0, []⟩).text) ≠ [] := by
    intro he
    rw [he] at hdet
    rw [is_chapter_title_nil] at hdet
    exact Bool.noConfusion hdet
  have hie : (pyStrip ((segs.getD j ⟨0, 0, []⟩).text)).isEmpty = false := by
    rcases hx : pyStrip ((segs.getD j ⟨0, 0, []⟩).text) with _ | _
    · exact absurd hx hne
    · rfl
  simp [hie, pyContains_refl]
  intro he
  rw [hel] at he
  simp only [Option.getD_some] at he
  exact absurd he hne

/-- **C10 witness.**  A three-segment file: `"Chapter 1"` is detected
and written prefixed, the following `"apter"` (a substring of the
detected title) is also prefixed, and `"hello"` (not a substring) is
written plain. -/
theorem claim_C10_witness :
    ((process_file [⟨0, 5, s2l "Chapter 1"⟩, ⟨5, 9, s2l "apter"⟩, ⟨9, 12, s2l "hello"⟩]).getD 0
        ⟨0, [], [], []⟩).textLine = s2l "[CHAPTER] Chapter 1" ∧
    ((process_file [⟨0, 5, s2l "Chapter 1"⟩, ⟨5, 9, s2l "apter"⟩, ⟨9, 12, s2l "hello"⟩]).getD 1
        ⟨0, [], [], []⟩).textLine = s2l "[CHAPTER] apter" ∧
    ((process_file [⟨0, 5, s2l "Chapter 1"⟩, ⟨5, 9, s2l "apter"⟩, ⟨9, 12, s2l "hello"⟩]).getD 2
        ⟨0, [], [], []⟩).textLine = s2l "hello" := by
  obtain ⟨hlen, hmain, hdet⟩ :=
    claim_C10_chapter_prefix [⟨0, 5, s2l "Chapter 1"⟩, ⟨5, 9, s2l "apter"⟩, ⟨9, 12, s2l "hello"⟩]
  refine ⟨hdet 0 (by decide) (by decide), ?_, ?_⟩
  · rw [hmain 1 (by decide)]
    decide
  · rw [hmain 2 (by decide)]
    decide
